import Mathlib

/-!
Shallow embedding, in Lean, of the oncehub-website dashboard's tab-discovery
and analytics code, together with theorems checking the specified behaviour.

Strings of the JavaScript source are modelled as lists of characters
(`Str := List Char`); JavaScript string methods (`trim`, `toLowerCase`,
`includes`, `split`) are embedded as the corresponding list functions below.
Network fetches are modelled by an explicit table `Str -> Option Str` from a
tab name to the raw CSV text that the fetch would return (`none` models a
non-ok response or a thrown error).  JavaScript numbers holding integer data
are modelled as `Int`/`Nat`; averages (floating point in the source) are
modelled as exact rationals.
-/

/-- Strings are modelled as lists of characters. -/
abbrev Str := List Char

/-- Embedding of JavaScript `String.prototype.trim` (whitespace stripped from
both ends). -/
def trimL (l : Str) : Str :=
  ((l.dropWhile Char.isWhitespace).reverse.dropWhile Char.isWhitespace).reverse

/-- A line is blank when `line.trim()` is empty, i.e. every character is
whitespace. -/
def isBlank (l : Str) : Bool :=
  l.all Char.isWhitespace

/-- Embedding of `String.prototype.toLowerCase` (ASCII range, which is all the
source uses it for). -/
def toLowerL (l : Str) : Str :=
  l.map Char.toLower

/-- Does `hay` start with `needle`? -/
def startsWithL : Str → Str → Bool
  | [], _ => true
  | _ :: _, [] => false
  | a :: as, b :: bs => a = b && startsWithL as bs

/-- Embedding of `String.prototype.includes`: `needle` occurs contiguously in
`hay`. -/
def containsSub : Str → Str → Bool
  | [], needle => needle.isEmpty
  | c :: t, needle => startsWithL needle (c :: t) || containsSub t needle

/-- Split a text on the newline character, as `csvText.split('\n')` does. -/
def splitNl : Str → List Str
  | [] => [[]]
  | c :: t =>
    if c = '\n' then [] :: splitNl t
    else
      match splitNl t with
      | [] => [[c]]
      | line :: rest => (c :: line) :: rest

/-- The character loop of `parseCSV` over one line: `inQuotes` is the quoting
state, `current` the field being accumulated, `row` the fields already
produced.  A doubled quote inside quotes emits a literal quote; a quote
toggles the quoting state; a comma outside quotes ends the field; every other
character (including a comma inside quotes) is appended to the field. -/
def parseLineAux : Str → Bool → Str → List Str → List Str
  | [], _, current, row => row ++ [current]
  | '"' :: '"' :: rest, true, current, row => parseLineAux rest true (current ++ ['"']) row
  | '"' :: rest, true, current, row => parseLineAux rest false current row
  | '"' :: rest, false, current, row => parseLineAux rest true current row
  | ',' :: rest, false, current, row => parseLineAux rest false [] (row ++ [current])
  | c :: rest, inQuotes, current, row => parseLineAux rest inQuotes (current ++ [c]) row

/-- Parse one physical line into its fields. -/
def parseLine (line : Str) : List Str :=
  parseLineAux line false [] []

/-- Embedding of the source's `parseCSV`: split on newlines, skip blank lines,
parse each remaining line into fields. -/
def parseCSV (csvText : Str) : List (List Str) :=
  (splitNl csvText).filterMap fun line =>
    if isBlank line then none else some (parseLine line)

/-- The fixed category whitelist of the row validator. -/
def categoryWhitelist : List Str :=
  ["HRT".toList, "TRT".toList, "Provider".toList]

/-- Embedding of the aggregate-row test, the regular expression
matching a leading digit run, optional whitespace, and a parenthesized
percentage made of digits and dots, anchored at both ends.  The regular
expression is deterministic (no profitable backtracking), so the greedy
left-to-right scan below is equivalent. -/
def isAggregateName (s : Str) : Bool :=
  let ds := s.takeWhile Char.isDigit
  if ds.isEmpty then false
  else
    match (s.dropWhile Char.isDigit).dropWhile Char.isWhitespace with
    | '(' :: r2 =>
      let pbody := fun c => c.isDigit || c = '.'
      !(r2.takeWhile pbody).isEmpty && decide ((r2.dropWhile pbody) = ['%', ')'])
    | _ => false

/-- The configured name exclusion: `name.toLowerCase().includes('daniel raphael')`. -/
def excludedName (name : Str) : Bool :=
  containsSub (toLowerL name) "daniel raphael".toList

/-- The reference-URL check: `url.includes('oncehub.com')`. -/
def hasOncehub (url : Str) : Bool :=
  containsSub url "oncehub.com".toList

/-- Decimal value of a run of digit characters. -/
def digitsToNat (l : Str) : Nat :=
  l.foldl (fun n c => 10 * n + (c.toNat - 48)) 0

/-- Embedding of the days-out extraction: find the first run of digits
anywhere in the raw field and parse it; `-1` when there is none. -/
def extractDaysOut (raw : Str) : Int :=
  let rest := raw.dropWhile fun c => !c.isDigit
  if rest.isEmpty then -1
  else Int.ofNat (digitsToNat (rest.takeWhile Char.isDigit))

/-- One validated availability record of the data endpoint
(interface `ScrapingResult` of the source). -/
structure ScrapingResult where
  name : Str
  type : Str
  location : Str
  daysOutUntilAppointment : Int
  firstAvailableDate : Option Str
  scrapedAt : Str
  error : Option Str
deriving DecidableEq, Repr

/-- Take exactly two digit characters from the front, if present. -/
def take2Digits : Str → Option (Str × Str)
  | a :: b :: rest => if a.isDigit && b.isDigit then some ([a, b], rest) else none
  | _ => none

/-- Take exactly four digit characters from the front, if present. -/
def take4Digits (l : Str) : Option (Str × Str) :=
  match take2Digits l with
  | some (d1, r) =>
    match take2Digits r with
    | some (d2, r2) => some (d1 ++ d2, r2)
    | none => none
  | none => none

/-- Match `MM-DD-YYYY` at the current position, returning the three groups and
the remaining text. -/
def matchDateAt (l : Str) : Option (Str × Str × Str × Str) :=
  match take2Digits l with
  | some (mo, '-' :: r2) =>
    match take2Digits r2 with
    | some (da, '-' :: r4) =>
      match take4Digits r4 with
      | some (yr, r5) => some (mo, da, yr, r5)
      | none => none
    | _ => none
  | _ => none

/-- An optional two-digit group, defaulting to `00` as the source's
destructuring defaults do. -/
def optTimePart (l : Str) : Str × Str :=
  match take2Digits l with
  | some (d, r) => (d, r)
  | none => ("00".toList, l)

/-- An optional colon. -/
def skipColon : Str → Str
  | ':' :: r => r
  | l => l

/-- Greedy match of the optional time tail of the tab-name pattern:
optional whitespace, then up to three optional two-digit groups separated by
optional colons, each defaulting to `00`. -/
def extractTimeAfterDate (l : Str) : Str × Str × Str :=
  let l1 := l.dropWhile Char.isWhitespace
  let (h, r1) := optTimePart l1
  let (mi, r2) := optTimePart (skipColon r1)
  let (se, _) := optTimePart (skipColon r2)
  (h, mi, se)

/-- Scan for the first position where the tab-name date pattern matches
(models the search performed by `tabName.match(...)` in `parseResults`). -/
def scanTabDate : Str → Option (Str × Str × Str × Str × Str × Str)
  | [] => none
  | c :: t =>
    match matchDateAt (c :: t) with
    | some (mo, da, yr, rest) =>
      let (h, mi, se) := extractTimeAfterDate rest
      some (mo, da, yr, h, mi, se)
    | none => scanTabDate t

/-- The ISO-like capture timestamp derived from the tab name, or empty when
the tab name does not contain a date. -/
def extractTabDate (tab : Str) : Str :=
  match scanTabDate tab with
  | some (mo, da, yr, h, mi, se) =>
    yr ++ '-' :: mo ++ '-' :: da ++ 'T' :: h ++ ':' :: mi ++ ':' :: se
  | none => []

/-- Match the in-row scraped-at pattern `YYYY-MM-DD HH:MM:SS` (all groups
required, at least one whitespace between date and time) at the current
position, yielding the ISO string the source builds from the groups. -/
def matchScrapedAtPos (l : Str) : Option Str :=
  match take4Digits l with
  | some (yr, '-' :: r2) =>
    match take2Digits r2 with
    | some (mo, '-' :: r4) =>
      match take2Digits r4 with
      | some (da, r5) =>
        if (r5.takeWhile Char.isWhitespace).isEmpty then none
        else
          match take2Digits (r5.dropWhile Char.isWhitespace) with
          | some (h, ':' :: r7) =>
            match take2Digits r7 with
            | some (mi, ':' :: r9) =>
              match take2Digits r9 with
              | some (se, _) =>
                some (yr ++ '-' :: mo ++ '-' :: da ++ 'T' :: h ++ ':' :: mi ++ ':' :: se)
              | none => none
            | _ => none
          | _ => none
      | none => none
    | _ => none
  | _ => none

/-- Scan the raw scraped-at field for the first match of the timestamp
pattern. -/
def scanScrapedAt : Str → Option Str
  | [] => none
  | c :: t =>
    match matchScrapedAtPos (c :: t) with
    | some s => some s
    | none => scanScrapedAt t

/-- Embedding of one iteration of the row loop of `parseResults`: `none` when
the row is rejected, otherwise the record built from it.  `nowISO` stands for
`new Date().toISOString()`, the ambient clock the source falls back to. -/
def rowToResult (tabDate nowISO : Str) (row : List Str) : Option ScrapingResult :=
  if row.length < 5 then none
  else
    let category := trimL (row.getD 0 [])
    let location := trimL (row.getD 1 [])
    let name := trimL (row.getD 2 [])
    let daysOutRaw := trimL (row.getD 4 [])
    let firstAvailable := match row.getD 7 [] with
      | [] => none
      | f => some (trimL f)
    let scrapedAtRaw := trimL (row.getD 8 [])
    let errorCode := trimL (row.getD 9 [])
    if !(categoryWhitelist.contains category) then none
    else if name.isEmpty then none
    else if isAggregateName name then none
    else if excludedName name then none
    else if !(hasOncehub (trimL (row.getD 3 []))) then none
    else
      let daysOut := extractDaysOut daysOutRaw
      let scrapedAt0 := match scanScrapedAt scrapedAtRaw with
        | some s => s
        | none => tabDate
      some
        { name := name
          type := category
          location := location
          daysOutUntilAppointment := daysOut
          firstAvailableDate := firstAvailable
          scrapedAt := if scrapedAt0.isEmpty then nowISO else scrapedAt0
          error := if errorCode.isEmpty then none else some errorCode }

/-- Embedding of `parseResults` (row 0 is the header and is skipped, each
remaining row is validated and mapped). -/
def parseResults (rows : List (List Str)) (tabName nowISO : Str) : List ScrapingResult :=
  (rows.drop 1).filterMap (rowToResult (extractTabDate tabName) nowISO)

/-- The probe used before parsing: some row's first field is (after trimming)
a whitelisted category. -/
def hasValidData (rows : List (List Str)) : Bool :=
  rows.any fun row =>
    !(row.getD 0 []).isEmpty && categoryWhitelist.contains (trimL (row.getD 0 []))

/-- Embedding of `fetchTabData`: fetch one candidate tab (the fetch is the
table argument; `none` models a non-ok response or a network error), reject
trivially small documents, documents without any whitelisted category marker,
and documents from which no row validates. -/
def fetchTabData (table : Str → Option Str) (tabName nowISO : Str) :
    Option (List ScrapingResult) :=
  match table tabName with
  | none => none
  | some csvText =>
    if csvText.length < 50 then none
    else
      let rows := parseCSV csvText
      if rows.length < 2 then none
      else if !hasValidData rows then none
      else
        let results := parseResults rows tabName nowISO
        if results.length > 0 then some results else none

/-- Embedding of the candidate loop of the resolver (`fetchDataForDate` of the
data endpoint): try each candidate in order, returning the first non-empty
validated record set. -/
def tryTabs (table : Str → Option Str) (nowISO : Str) :
    List Str → Option (List ScrapingResult)
  | [] => none
  | t :: ts =>
    match fetchTabData table t nowISO with
    | some rs => if rs.length > 0 then some rs else tryTabs table nowISO ts
    | none => tryTabs table nowISO ts

/-- One parsed row of the analytics endpoint (interface `DataItem`). -/
structure DataItem where
  name : Str
  type : Str
  location : Str
  daysOut : Int
deriving DecidableEq, Repr

/-- Embedding of one iteration of the row loop inside the analytics
endpoint's `fetchDataForDate` (the analytics variant of the validator, which
keeps only name, category, location and days-out). -/
def itemOfRow (row : List Str) : Option DataItem :=
  let category := trimL (row.getD 0 [])
  if !(categoryWhitelist.contains category) then none
  else
    let name := trimL (row.getD 2 [])
    if name.isEmpty then none
    else if isAggregateName name then none
    else if excludedName name then none
    else if !(hasOncehub (trimL (row.getD 3 []))) then none
    else
      some
        { name := name
          type := category
          location := trimL (row.getD 1 [])
          daysOut := extractDaysOut (trimL (row.getD 4 [])) }

/-- The analytics endpoint's row loop over all rows after the header. -/
def parseItems (rows : List (List Str)) : List DataItem :=
  (rows.drop 1).filterMap itemOfRow

/-- A calendar date as the source reads it off a JavaScript `Date`
(`getFullYear`, `getMonth() + 1`, `getDate`). -/
structure CalDate where
  year : Nat
  month : Nat
  day : Nat
deriving DecidableEq, Repr

/-- Leap-year rule used by calendar normalization. -/
def isLeapYear (y : Nat) : Bool :=
  (y % 4 = 0 && y % 100 ≠ 0) || y % 400 = 0

/-- Days in a month. -/
def daysInMonth (y m : Nat) : Nat :=
  if m = 2 then (if isLeapYear y then 29 else 28)
  else if m = 4 || m = 6 || m = 9 || m = 11 then 30
  else 31

/-- The previous calendar day (models the normalization `Date` performs when
`setDate(getDate() - 1)` is called). -/
def prevDay (d : CalDate) : CalDate :=
  if d.day > 1 then ⟨d.year, d.month, d.day - 1⟩
  else if d.month > 1 then ⟨d.year, d.month - 1, daysInMonth d.year (d.month - 1)⟩
  else ⟨d.year - 1, 12, 31⟩

/-- `i` calendar days before `d` (models `setDate(getDate() - i)`). -/
def predIter : Nat → CalDate → CalDate
  | 0, d => d
  | n + 1, d => prevDay (predIter n d)

/-- Decimal digits of a number, as `String(n)` renders it. -/
def numStr (n : Nat) : Str :=
  (toString n).toList

/-- `String(n).padStart(2, '0')`. -/
def pad2 (n : Nat) : Str :=
  let s := numStr n
  List.replicate (2 - s.length) '0' ++ s

/-- Four-digit zero padding (used for the ISO date rendering). -/
def pad4 (n : Nat) : Str :=
  let s := numStr n
  List.replicate (4 - s.length) '0' ++ s

/-- The curated list of common scrape start times. -/
def commonTimes : List Str :=
  ["03:00".toList, "03:05".toList, "03:10".toList, "03:15".toList,
   "03:17".toList, "03:20".toList, "03:25".toList, "03:30".toList,
   "03:35".toList, "03:40".toList, "03:45".toList, "03:48".toList,
   "03:50".toList, "03:55".toList, "04:00".toList, "04:05".toList,
   "04:10".toList]

/-- Embedding of `generateTabNames`: three second-variants for each common
time, then the bare `MM-DD-YYYY` and `YYYY-MM-DD` forms. -/
def generateTabNames (date : CalDate) : List Str :=
  let month := pad2 date.month
  let day := pad2 date.day
  let year := numStr date.year
  let baseDate := month ++ '-' :: day ++ '-' :: year
  (commonTimes.flatMap fun time =>
    ["Results ".toList ++ baseDate ++ ' ' :: time ++ ":00 EST".toList,
     "Results ".toList ++ baseDate ++ ' ' :: time ++ ":09 EST".toList,
     "Results ".toList ++ baseDate ++ ' ' :: time ++ ":30 EST".toList]) ++
  ["Results ".toList ++ baseDate,
   "Results ".toList ++ year ++ '-' :: month ++ '-' :: day]

/-- Embedding of the candidate loop inside the analytics endpoint's
`fetchDataForDate`: skip non-ok fetches, trivially small documents, documents
without the category marker, and documents yielding no validated items. -/
def tryTabsA (table : Str → Option Str) : List Str → Option (List DataItem)
  | [] => none
  | t :: ts =>
    match table t with
    | none => tryTabsA table ts
    | some csvText =>
      if csvText.length < 50 then tryTabsA table ts
      else
        let rows := parseCSV csvText
        if !hasValidData rows then tryTabsA table ts
        else
          let data := parseItems rows
          if data.length > 0 then some data else tryTabsA table ts

/-- The analytics endpoint's per-date resolver. -/
def fetchDataForDateA (table : Str → Option Str) (date : CalDate) :
    Option (List DataItem) :=
  tryTabsA table (generateTabNames date)

/-- One resolved day of the trailing window (interface `DayData`). -/
structure DayData where
  date : CalDate
  data : List DataItem
  avgWait : ℚ
  hrtAvg : ℚ
  trtAvg : ℚ
deriving DecidableEq, Repr

/-- Mean days-out of a list of items (0 when empty, as the source guards). -/
def avgOf (l : List DataItem) : ℚ :=
  if l.length > 0 then (l.map fun d => (d.daysOut : ℚ)).sum / (l.length : ℚ)
  else 0

/-- Embedding of `calculateDayStats`. -/
def calculateDayStats (data : List DataItem) : ℚ × ℚ × ℚ :=
  let valid := data.filter fun d => decide (0 ≤ d.daysOut)
  (avgOf valid,
   avgOf (valid.filter fun d => decide (d.type = "HRT".toList)),
   avgOf (valid.filter fun d => decide (d.type = "TRT".toList)))

/-- Embedding of the window-assembly loop of the analytics `GET`: for each of
the 7 trailing days, resolve the day and keep it when it produced items. -/
def seriesOf (table : Str → Option Str) (today : CalDate) : List DayData :=
  (List.range 7).filterMap fun i =>
    let date := predIter i today
    match fetchDataForDateA table date with
    | some data =>
      if data.length > 0 then
        let stats := calculateDayStats data
        some ⟨date, data, stats.1, stats.2.1, stats.2.2⟩
      else none
    | none => none

/-- The `currentStats` object of the analytics response. -/
structure CurrentStats where
  totalLinks : Nat
  avgWait : ℚ
  immediate : Nat
deriving DecidableEq, Repr

/-- Embedding of the current-stats computation: all records count toward
`totalLinks`; the mean and the immediate count are taken over records with a
known (non-negative) wait value only. -/
def currentStatsOf (latestData : List DataItem) : CurrentStats :=
  let validData := latestData.filter fun d => decide (0 ≤ d.daysOut)
  { totalLinks := latestData.length
    avgWait :=
      if validData.length > 0 then
        (validData.map fun d => (d.daysOut : ℚ)).sum / (validData.length : ℚ)
      else 0
    immediate := (validData.filter fun d => decide (d.daysOut ≤ 3)).length }

/-- One entry of the best/worst rankings. -/
structure RankEntry where
  name : Str
  type : Str
  location : Str
  daysOut : Int
deriving DecidableEq, Repr

/-- The ranking universe: HRT or TRT records with a known wait value. -/
def statesOnly (latestData : List DataItem) : List DataItem :=
  latestData.filter fun d =>
    decide ((d.type = "HRT".toList ∨ d.type = "TRT".toList) ∧ 0 ≤ d.daysOut)

/-- Top 10 by ascending wait (the JavaScript stable sort with comparator
`a.daysOut - b.daysOut` is embedded as a stable insertion sort on the
corresponding total preorder). -/
def bestStatesOf (latestData : List DataItem) : List RankEntry :=
  (((statesOnly latestData).insertionSort fun a b => a.daysOut ≤ b.daysOut).take 10).map
    fun d => ⟨d.name, d.type, d.location, d.daysOut⟩

/-- Top 10 by descending wait (comparator `b.daysOut - a.daysOut`). -/
def worstStatesOf (latestData : List DataItem) : List RankEntry :=
  (((statesOnly latestData).insertionSort fun a b => b.daysOut ≤ a.daysOut).take 10).map
    fun d => ⟨d.name, d.type, d.location, d.daysOut⟩

/-- The fixed region-to-keywords table, in the source's insertion order. -/
def regions : List (Str × List Str) :=
  [("West".toList,
    ["California".toList, "CA".toList, "Oregon".toList, "OR".toList,
     "Washington".toList, "WA".toList, "Nevada".toList, "NV".toList,
     "Arizona".toList, "AZ".toList, "Utah".toList, "UT".toList,
     "Colorado".toList, "CO".toList, "New Mexico".toList, "NM".toList,
     "Montana".toList, "MT".toList, "Idaho".toList, "ID".toList,
     "Wyoming".toList, "WY".toList, "Alaska".toList, "AK".toList,
     "Hawaii".toList, "HI".toList]),
   ("Midwest".toList,
    ["Ohio".toList, "OH".toList, "Michigan".toList, "MI".toList,
     "Indiana".toList, "IN".toList, "Illinois".toList, "IL".toList,
     "Wisconsin".toList, "WI".toList, "Minnesota".toList, "MN".toList,
     "Iowa".toList, "IA".toList, "Missouri".toList, "MO".toList,
     "Nebraska".toList, "NE".toList, "Kansas".toList, "KS".toList,
     "North Dakota".toList, "ND".toList, "South Dakota".toList, "SD".toList]),
   ("South".toList,
    ["Texas".toList, "TX".toList, "Florida".toList, "FL".toList,
     "Georgia".toList, "GA".toList, "North Carolina".toList, "NC".toList,
     "Virginia".toList, "VA".toList, "Tennessee".toList, "TN".toList,
     "Kentucky".toList, "KY".toList, "Alabama".toList, "AL".toList,
     "Mississippi".toList, "MS".toList, "Louisiana".toList, "LA".toList,
     "Arkansas".toList, "AR".toList, "Oklahoma".toList, "OK".toList,
     "South Carolina".toList, "SC".toList, "Maryland".toList, "MD".toList,
     "West Virginia".toList, "WV".toList, "Delaware".toList, "DE".toList,
     "DC".toList]),
   ("Northeast".toList,
    ["New York".toList, "NY".toList, "New Jersey".toList, "NJ".toList,
     "Pennsylvania".toList, "PA".toList, "Massachusetts".toList, "MA".toList,
     "Connecticut".toList, "CT".toList, "New Hampshire".toList, "NH".toList,
     "Vermont".toList, "VT".toList, "Maine".toList, "ME".toList,
     "Rhode Island".toList, "RI".toList])]

/-- One row of the regional aggregates. -/
structure RegionalStat where
  region : Str
  count : Nat
  avgWait : ℚ
deriving DecidableEq, Repr

/-- Embedding of the regional aggregation: keyword substring match over
location and name, plus a case-insensitive whole-field match on location. -/
def regionalStatsOf (latestData : List DataItem) : List RegionalStat :=
  regions.map fun rk =>
    let regionData := (statesOnly latestData).filter fun d =>
      rk.2.any fun kw =>
        containsSub d.location kw || containsSub d.name kw ||
          decide (toLowerL d.location = toLowerL kw)
    { region := rk.1
      count := regionData.length
      avgWait :=
        if regionData.length > 0 then
          (regionData.map fun d => (d.daysOut : ℚ)).sum / (regionData.length : ℚ)
        else 0 }

/-- One day-over-day delta entry. -/
structure DailyChange where
  name : Str
  type : Str
  change : Int
  current : Int
  previousValue : Int
deriving DecidableEq, Repr

/-- Embedding of one iteration of the daily-changes loop: skip records with
unknown current value, match the previous day's record by name (first match),
require its value known, and keep only non-zero changes. -/
def dailyEntryOf (prevData : List DataItem) (item : DataItem) : Option DailyChange :=
  if item.daysOut < 0 then none
  else
    match prevData.find? fun d => d.name == item.name with
    | none => none
    | some prevItem =>
      if 0 ≤ prevItem.daysOut then
        let change := item.daysOut - prevItem.daysOut
        if change ≠ 0 then
          some ⟨item.name, item.type, change, item.daysOut, prevItem.daysOut⟩
        else none
      else none

/-- The daily-changes list: one pass over the latest snapshot, then a stable
sort by descending absolute change (comparator
`Math.abs(b.change) - Math.abs(a.change)`). -/
def computeDailyChanges (latest prevData : List DataItem) : List DailyChange :=
  (latest.filterMap (dailyEntryOf prevData)).insertionSort fun a b =>
    |b.change| ≤ |a.change|

/-- Daily changes of the assembled window: latest day against the immediately
preceding resolved day, empty when there is no second resolved day. -/
def dailyChangesOf (allDays : List DayData) : List DailyChange :=
  match allDays with
  | latest :: prev :: _ => computeDailyChanges latest.data prev.data
  | _ => []

/-- One week-over-week delta entry. -/
structure WeeklyChange where
  name : Str
  type : Str
  change : Int
deriving DecidableEq, Repr

/-- Embedding of one iteration of the weekly-changes loop. -/
def weeklyEntryOf (weekData : List DataItem) (item : DataItem) : Option WeeklyChange :=
  if item.daysOut < 0 then none
  else
    match weekData.find? fun d => d.name == item.name with
    | none => none
    | some weekItem =>
      if 0 ≤ weekItem.daysOut then
        let change := item.daysOut - weekItem.daysOut
        if change ≠ 0 then some ⟨item.name, item.type, change⟩ else none
      else none

/-- The weekly-changes list for a latest snapshot and the week-ago snapshot. -/
def computeWeeklyChanges (latest weekData : List DataItem) : List WeeklyChange :=
  (latest.filterMap (weeklyEntryOf weekData)).insertionSort fun a b =>
    |b.change| ≤ |a.change|

/-- Weekly changes of the assembled window: present only when all seven days
resolved (`weekAgoDay = allDaysData.length >= 7 ? allDaysData[6] : null`),
comparing the latest day against the oldest day of the window. -/
def weeklyChangesOf (allDays : List DayData) : List WeeklyChange :=
  if h : 7 ≤ allDays.length then
    computeWeeklyChanges (allDays.get ⟨0, by omega⟩).data (allDays.get ⟨6, by omega⟩).data
  else []

/-- The ISO `YYYY-MM-DD` rendering used for trend points and `latestDate`. -/
def isoDate (d : CalDate) : Str :=
  pad4 d.year ++ '-' :: pad2 d.month ++ '-' :: pad2 d.day

/-- One trend point. -/
structure TrendPoint where
  date : Str
  avgWait : ℚ
  hrtAvg : ℚ
  trtAvg : ℚ
deriving DecidableEq, Repr

/-- The trend series: the window reversed so the oldest day comes first. -/
def trendDataOf (allDays : List DayData) : List TrendPoint :=
  allDays.reverse.map fun day => ⟨isoDate day.date, day.avgWait, day.hrtAvg, day.trtAvg⟩

/-- The full analytics response body. -/
structure AnalyticsReport where
  success : Bool
  error : Option Str
  currentStats : CurrentStats
  previousDayAvg : Option ℚ
  bestStates : List RankEntry
  worstStates : List RankEntry
  regionalStats : List RegionalStat
  dailyChanges : List DailyChange
  weeklyChanges : List WeeklyChange
  trendData : List TrendPoint
  daysAnalyzed : Nat
  latestDate : Option Str
deriving DecidableEq, Repr

/-- The explicit no-data response returned when no day of the window
resolved. -/
def noDataReport : AnalyticsReport :=
  { success := false
    error := some "No data available".toList
    currentStats := ⟨0, 0, 0⟩
    previousDayAvg := none
    bestStates := []
    worstStates := []
    regionalStats := []
    dailyChanges := []
    weeklyChanges := []
    trendData := []
    daysAnalyzed := 0
    latestDate := none }

/-- Embedding of the report assembly of the analytics `GET` from the resolved
window. -/
def reportOf (allDaysData : List DayData) : AnalyticsReport :=
  match allDaysData with
  | [] => noDataReport
  | latestDay :: rest =>
    let latestData := latestDay.data
    { success := true
      error := none
      currentStats := currentStatsOf latestData
      previousDayAvg := match rest with
        | prev :: _ => some prev.avgWait
        | [] => none
      bestStates := bestStatesOf latestData
      worstStates := worstStatesOf latestData
      regionalStats := regionalStatsOf latestData
      dailyChanges := dailyChangesOf (latestDay :: rest)
      weeklyChanges := weeklyChangesOf (latestDay :: rest)
      trendData := trendDataOf (latestDay :: rest)
      daysAnalyzed := (latestDay :: rest).length
      latestDate := some (isoDate latestDay.date) }

/-- The analytics `GET`, as a function of the fetch table and the reference
date. -/
def getAnalytics (table : Str → Option Str) (today : CalDate) : AnalyticsReport :=
  reportOf (seriesOf table today)

/-- Embedding of the data endpoint's sort comparator: error-tagged records
last, then unknown wait values last, then ascending by wait value. -/
def compareResults (a b : ScrapingResult) : Int :=
  if a.error.isSome && !b.error.isSome then 1
  else if !a.error.isSome && b.error.isSome then -1
  else if a.daysOutUntilAppointment < 0 && 0 ≤ b.daysOutUntilAppointment then 1
  else if 0 ≤ a.daysOutUntilAppointment && b.daysOutUntilAppointment < 0 then -1
  else a.daysOutUntilAppointment - b.daysOutUntilAppointment

/-- The data endpoint's sort (a stable sort under the comparator's total
preorder). -/
def sortResults (results : List ScrapingResult) : List ScrapingResult :=
  results.insertionSort fun a b => compareResults a b ≤ 0

/-- A fixture CSV document with a header row and one valid availability
row. -/
def sampleCSV : Str :=
  "Category,Location,Name,URL,Days\nHRT,Arizona,HRT Arizona,https://go.oncehub.com/x,5".toList

/-- A fixture fetch table serving `sampleCSV` under one of the candidate tab
names generated for 2026-01-11. -/
def sampleTable : Str → Option Str := fun t =>
  if t = "Results 01-11-2026".toList then some sampleCSV else none

/-- A fixture CSV document that is non-trivially sized and carries the
category marker, but whose only data row is an aggregate/summary row, so that
no row passes validation. -/
def aggCSV : Str :=
  "Category,Location,Name,URL,Days\nHRT,,22 (100.0%),https://go.oncehub.com/x,5".toList

/-- The candidate tab name used with `aggTable`. -/
def aggTab : Str := "T".toList

/-- A fixture fetch table serving only the aggregate-row document. -/
def aggTable : Str → Option Str := fun t =>
  if t = aggTab then some aggCSV else none

/-- A record carrying the unknown sentinel. -/
def sentItem : DataItem := ⟨"X".toList, "HRT".toList, [], -1⟩

/-- A one-record snapshot with a known wait value. -/
def sentData : List DataItem := [⟨"A".toList, "HRT".toList, "Arizona".toList, 5⟩]

/-- An error-tagged record with a known wait value. -/
def recErrKnown : ScrapingResult :=
  ⟨"E".toList, "HRT".toList, [], 5, none, [], some "ERR".toList⟩

/-- A non-error record with the unknown sentinel wait value. -/
def recUnknown : ScrapingResult :=
  ⟨"U".toList, "HRT".toList, [], -1, none, [], none⟩

/-- The rows parsed from the sample fixture document. -/
def wRows : List (List Str) := parseCSV sampleCSV

/-- The record the validator produces from the sample fixture. -/
def wRec : ScrapingResult :=
  ⟨"HRT Arizona".toList, "HRT".toList, "Arizona".toList, 5, none, "now".toList, none⟩

/-- A fetch table that only answers for implausibly long tab names; it agrees
with the empty table on every generated candidate. -/
def bigTable : Str → Option Str := fun t =>
  if 100 < t.length then some sampleCSV else none

/-- One resolved day holding a single record named A with the given wait. -/
def wkDay (n : Int) : DayData :=
  ⟨⟨2026, 1, 11⟩, [⟨"A".toList, "HRT".toList, [], n⟩], 0, 0, 0⟩

/-- A full 7-day window whose record A moves from 2 to 3. -/
def wkWindow : List DayData :=
  [wkDay 3, wkDay 3, wkDay 3, wkDay 3, wkDay 3, wkDay 3, wkDay 2]

/-- A name qualifies for a day-over-day delta: present in both snapshots with
known wait values on both sides and differing values. -/
def dailyQualifies (latest prevData : List DataItem) (n : Str) : Prop :=
  ∃ l ∈ latest, ∃ p ∈ prevData, l.name = n ∧ p.name = n ∧
    0 ≤ l.daysOut ∧ 0 ≤ p.daysOut ∧ l.daysOut ≠ p.daysOut

instance dailyQualifiesDec (latest prevData : List DataItem) (n : Str) :
    Decidable (dailyQualifies latest prevData n) := by
  unfold dailyQualifies
  infer_instance

/-- A latest snapshot with two records sharing the same name. -/
def dupLatest : List DataItem :=
  [⟨"A".toList, "HRT".toList, [], 3⟩, ⟨"A".toList, "HRT".toList, [], 3⟩]

/-- A previous snapshot with one record of that name. -/
def dupPrev : List DataItem := [⟨"A".toList, "HRT".toList, [], 5⟩]

/-- A one-record latest snapshot for the C3 witness. -/
def wLatest : List DataItem := [⟨"A".toList, "HRT".toList, [], 2⟩]

/-- A one-record previous snapshot for the C3 witness. -/
def wPrev : List DataItem := [⟨"A".toList, "HRT".toList, [], 5⟩]

/-- C5: when no day of the window resolves, the analytics endpoint returns
the explicit no-data response (`success = false` with the
"No data available" error), and whenever at least one day resolves it
returns a populated report with `success = true` and no error, so a caller
can always tell total failure apart from a populated report. -/
theorem getAnalytics_noData (table : Str → Option Str) (today : CalDate) :
    (seriesOf table today = [] →
      getAnalytics table today = noDataReport ∧
      (getAnalytics table today).success = false ∧
      (getAnalytics table today).error = some "No data available".toList) ∧
    (seriesOf table today ≠ [] →
      (getAnalytics table today).success = true ∧
      (getAnalytics table today).error = none) := by
  constructor
  · intro h
    simp [getAnalytics, h, reportOf, noDataReport]
  · intro h
    rcases hs : seriesOf table today with _ | ⟨d, rest⟩
    · exact absurd hs h
    · simp [getAnalytics, hs, reportOf]

/-- Witness for C5 at concrete fetch tables: the all-failing table produces
the distinguishable failure response, the sample table a successful one. -/
theorem getAnalytics_noData_witness :
    (getAnalytics (fun _ => none) ⟨2026, 1, 11⟩).success = false ∧
    (getAnalytics sampleTable ⟨2026, 1, 11⟩).success = true := by
  constructor
  · exact ((getAnalytics_noData (fun _ => none) ⟨2026, 1, 11⟩).1 (by decide)).2.1
  · exact ((getAnalytics_noData sampleTable ⟨2026, 1, 11⟩).2 (by decide)).1

/-- C7: a record with the unknown sentinel wait value is excluded from the
mean, from the immediate count and from the best/worst rankings, but still
counts toward `totalLinks`. -/
theorem unknownSentinel_excluded (data : List DataItem) (item : DataItem)
    (h : item.daysOut = -1) :
    (currentStatsOf (item :: data)).totalLinks = (currentStatsOf data).totalLinks + 1 ∧
    (currentStatsOf (item :: data)).avgWait = (currentStatsOf data).avgWait ∧
    (currentStatsOf (item :: data)).immediate = (currentStatsOf data).immediate ∧
    bestStatesOf (item :: data) = bestStatesOf data ∧
    worstStatesOf (item :: data) = worstStatesOf data := by
  have hneg : ¬ (0 ≤ item.daysOut) := by omega
  have hfilter : (item :: data).filter (fun d => decide (0 ≤ d.daysOut)) =
      data.filter fun d => decide (0 ≤ d.daysOut) := by
    simp [List.filter_cons, hneg]
  have hstates : statesOnly (item :: data) = statesOnly data := by
    simp [statesOnly, List.filter_cons, hneg]
  exact ⟨by simp [currentStatsOf], by simp [currentStatsOf, hfilter],
    by simp [currentStatsOf, hfilter], by simp [bestStatesOf, hstates],
    by simp [worstStatesOf, hstates]⟩

/-- Witness for C7 at a concrete snapshot. -/
theorem unknownSentinel_excluded_witness :
    (currentStatsOf (sentItem :: sentData)).totalLinks =
      (currentStatsOf sentData).totalLinks + 1 ∧
    (currentStatsOf (sentItem :: sentData)).avgWait = (currentStatsOf sentData).avgWait ∧
    (currentStatsOf (sentItem :: sentData)).immediate =
      (currentStatsOf sentData).immediate ∧
    bestStatesOf (sentItem :: sentData) = bestStatesOf sentData ∧
    worstStatesOf (sentItem :: sentData) = worstStatesOf sentData :=
  unknownSentinel_excluded sentData sentItem (by decide)

/-- C2: a candidate whose fetched text yields no validated row is treated
exactly like a fetch failure: `fetchTabData` returns no snapshot for it, the
candidate loop advances to the next candidate, and no candidate is ever
accepted with zero validated records. -/
theorem resolver_skips_unvalidated (table : Str → Option Str) (nowISO t csv : Str)
    (rest : List Str) (hfetch : table t = some csv)
    (hnone : parseResults (parseCSV csv) t nowISO = []) :
    fetchTabData table t nowISO = none ∧
    tryTabs table nowISO (t :: rest) = tryTabs table nowISO rest ∧
    ∀ (t2 : Str) (rs : List ScrapingResult),
      fetchTabData table t2 nowISO = some rs → rs ≠ [] := by
  have h1 : fetchTabData table t nowISO = none := by
    simp only [fetchTabData, hfetch]
    split_ifs with hlen hrows hvalid hres
    · rfl
    · rfl
    · rfl
    · rw [hnone] at hres
      simp at hres
    · rfl
  refine ⟨h1, ?_, ?_⟩
  · simp only [tryTabs, h1]
  · intro t2 rs hsome
    rcases ht2 : table t2 with _ | csv2
    · simp only [fetchTabData, ht2] at hsome
      exact absurd hsome (by simp)
    · simp only [fetchTabData, ht2] at hsome
      split_ifs at hsome with hlen hrows hvalid hres
      injection hsome with he
      subst he
      intro hnil
      rw [hnil] at hres
      simp at hres

/-- Witness for C2: the aggregate-only document is skipped exactly like a
missing tab. -/
theorem resolver_skips_unvalidated_witness :
    fetchTabData aggTable aggTab "now".toList = none ∧
    tryTabs aggTable "now".toList (aggTab :: []) = tryTabs aggTable "now".toList [] := by
  have h := resolver_skips_unvalidated aggTable "now".toList aggTab aggCSV []
    (by decide) (by decide)
  exact ⟨h.1, h.2.1⟩

/-- Characterization of a non-positive comparator result: errors sort after
non-errors; within one error class, unknown values sort after known ones and
known values ascend. -/
theorem compareResults_nonpos (a b : ScrapingResult) :
    compareResults a b ≤ 0 ↔
      (a.error.isSome = false ∧ b.error.isSome = true) ∨
      (a.error.isSome = b.error.isSome ∧
        ((0 ≤ a.daysOutUntilAppointment ∧ b.daysOutUntilAppointment < 0) ∨
         ((a.daysOutUntilAppointment < 0 ↔ b.daysOutUntilAppointment < 0) ∧
          a.daysOutUntilAppointment ≤ b.daysOutUntilAppointment))) := by
  unfold compareResults
  cases ha : a.error.isSome <;> cases hb : b.error.isSome <;>
    simp [ha, hb] <;> split_ifs <;> omega

/-- The comparator order is total. -/
theorem compareResults_le_total (a b : ScrapingResult) :
    compareResults a b ≤ 0 ∨ compareResults b a ≤ 0 := by
  rw [compareResults_nonpos, compareResults_nonpos]
  cases ha : a.error.isSome <;> cases hb : b.error.isSome <;> simp [ha, hb] <;> omega

/-- The comparator order is transitive. -/
theorem compareResults_le_trans (a b c : ScrapingResult)
    (hab : compareResults a b ≤ 0) (hbc : compareResults b c ≤ 0) :
    compareResults a c ≤ 0 := by
  rw [compareResults_nonpos] at hab hbc ⊢
  cases ha : a.error.isSome <;> cases hb : b.error.isSome <;> cases hc : c.error.isSome <;>
    simp [ha, hb, hc] at hab hbc ⊢ <;> omega

/-- Consequences of one comparator comparison. -/
theorem compareResults_facts (a b : ScrapingResult) (h : compareResults a b ≤ 0) :
    (a.error.isSome = true → b.error.isSome = true) ∧
    (a.error.isSome = b.error.isSome →
      a.daysOutUntilAppointment < 0 → 0 ≤ b.daysOutUntilAppointment → False) ∧
    (a.error = none → b.error = none →
      0 ≤ a.daysOutUntilAppointment → 0 ≤ b.daysOutUntilAppointment →
      a.daysOutUntilAppointment ≤ b.daysOutUntilAppointment) := by
  rw [compareResults_nonpos] at h
  refine ⟨?_, ?_, ?_⟩
  · intro ha
    rcases h with ⟨hf, _⟩ | ⟨he, _⟩
    · rw [ha] at hf
      exact absurd hf (by simp)
    · rw [← he, ha]
  · intro he hlt hge
    rcases h with ⟨hf, ht⟩ | ⟨_, hd⟩
    · rw [he, ht] at hf
      exact absurd hf (by simp)
    · omega
  · intro hae hbe hag hbg
    rcases h with ⟨_, ht⟩ | ⟨_, hd⟩
    · rw [hbe] at ht
      exact absurd ht (by simp)
    · omega

/-- C9 (amended): the data endpoint's sorted output is a permutation of its
input (no record is dropped or duplicated) in which every error-tagged record
is ordered after every non-error record; among records of the same error
status, a record with the unknown sentinel is ordered after every record with
a known value; and among non-error records with known values the order is
ascending by wait value. -/
theorem sortResults_order (results : List ScrapingResult) :
    ((sortResults results).Pairwise fun a b =>
      a.error.isSome = true → b.error.isSome = true) ∧
    ((sortResults results).Pairwise fun a b =>
      a.error.isSome = b.error.isSome →
      a.daysOutUntilAppointment < 0 → 0 ≤ b.daysOutUntilAppointment → False) ∧
    ((sortResults results).Pairwise fun a b =>
      a.error = none → b.error = none →
      0 ≤ a.daysOutUntilAppointment → 0 ≤ b.daysOutUntilAppointment →
      a.daysOutUntilAppointment ≤ b.daysOutUntilAppointment) ∧
    (sortResults results).Perm results := by
  have hs : (sortResults results).Pairwise fun a b => compareResults a b ≤ 0 := by
    haveI ht : IsTotal ScrapingResult (fun a b => compareResults a b ≤ 0) :=
      ⟨compareResults_le_total⟩
    haveI htr : IsTrans ScrapingResult (fun a b => compareResults a b ≤ 0) :=
      ⟨compareResults_le_trans⟩
    exact List.sorted_insertionSort _ _
  exact ⟨hs.imp fun h => (compareResults_facts _ _ h).1,
    hs.imp fun h => (compareResults_facts _ _ h).2.1,
    hs.imp fun h => (compareResults_facts _ _ h).2.2,
    List.perm_insertionSort _ _⟩

/-- C9 counterexample to the claim as stated: the non-error record with the
unknown sentinel is ordered before the error-tagged record with a known wait
value, so an unknown-valued record is not ordered after every known-valued
record. -/
theorem sortResults_unknown_before_error :
    sortResults [recErrKnown, recUnknown] = [recUnknown, recErrKnown] ∧
    recUnknown.daysOutUntilAppointment = -1 ∧
    0 ≤ recErrKnown.daysOutUntilAppointment ∧
    recUnknown.error = none ∧ recErrKnown.error.isSome = true := by decide

/-- Witness for C9 at a concrete record list: the sorted output keeps the
error-tagged record after the non-error one and is a permutation of the
input. -/
theorem sortResults_order_witness :
    ((sortResults [recErrKnown, recUnknown]).Pairwise fun a b =>
      a.error.isSome = true → b.error.isSome = true) ∧
    (sortResults [recErrKnown, recUnknown]).Perm [recErrKnown, recUnknown] :=
  ⟨(sortResults_order [recErrKnown, recUnknown]).1,
   (sortResults_order [recErrKnown, recUnknown]).2.2.2⟩

/-- Any character other than a quote (and other than a field-splitting comma
outside quotes) is appended literally to the current field. -/
theorem parseLineAux_other (c : Char) (hc : c ≠ '"') (l : Str) (inQuotes : Bool)
    (hcm : c = ',' → inQuotes = true) (cur : Str) (row : List Str) :
    parseLineAux (c :: l) inQuotes cur row = parseLineAux l inQuotes (cur ++ [c]) row := by
  rw [parseLineAux.eq_def]
  split <;> simp_all

/-- A quote outside the quoted state opens a quoted section. -/
theorem parseLineAux_quote_open (l : Str) (cur : Str) (row : List Str) :
    parseLineAux ('"' :: l) false cur row = parseLineAux l true cur row := by
  rw [parseLineAux.eq_def]
  split <;> simp_all
  rename_i heq hne1 hne2
  exact absurd heq.1.symm hne1

/-- A doubled quote inside the quoted state emits one literal quote. -/
theorem parseLineAux_escaped (l : Str) (cur : Str) (row : List Str) :
    parseLineAux ('"' :: '"' :: l) true cur row = parseLineAux l true (cur ++ ['"']) row := rfl

/-- A closing quote at the end of the line just ends the field. -/
theorem parseLineAux_quote_end (cur : Str) (row : List Str) :
    parseLineAux ['"'] true cur row = row ++ [cur] := rfl

/-- A closing quote followed by a non-quote character leaves the quoted
state without consuming that character. -/
theorem parseLineAux_quote_close (c : Char) (hc : c ≠ '"') (l : Str)
    (cur : Str) (row : List Str) :
    parseLineAux ('"' :: c :: l) true cur row = parseLineAux (c :: l) false cur row := by
  rw [parseLineAux.eq_def]
  split <;> simp_all
  rename_i heq hne
  exact absurd heq.1.symm hne

/-- Inside the quoted state, a quote-free run of characters (commas included)
is appended verbatim to the current field. -/
theorem parseLineAux_quoted (cs : Str) (h : '"' ∉ cs) (rest cur : Str) (row : List Str) :
    parseLineAux (cs ++ rest) true cur row = parseLineAux rest true (cur ++ cs) row := by
  induction cs generalizing cur with
  | nil => simp
  | cons c cs ih =>
    have hc : c ≠ '"' := fun he => h (by simp [he])
    have hcs : '"' ∉ cs := fun hm => h (List.mem_cons_of_mem _ hm)
    rw [List.cons_append, parseLineAux_other c hc _ true (fun _ => rfl) cur row, ih hcs]
    simp

/-- Splitting on newlines never yields an empty list of lines. -/
theorem splitNl_ne_nil (l : Str) : splitNl l ≠ [] := by
  induction l with
  | nil => simp [splitNl]
  | cons c t ih =>
    by_cases hc : c = '\n'
    · simp [splitNl, hc]
    · rcases hsp : splitNl t with _ | ⟨line, rest⟩
      · exact absurd hsp ih
      · simp [splitNl, hc, hsp]

/-- A newline is a hard separator: splitting distributes over it. -/
theorem splitNl_append_newline (a b : Str) :
    splitNl (a ++ '\n' :: b) = splitNl a ++ splitNl b := by
  induction a with
  | nil => simp [splitNl]
  | cons c a ih =>
    by_cases hc : c = '\n'
    · simp [splitNl, hc, ih]
    · rcases hsp : splitNl a with _ | ⟨line, rest⟩
      · exact absurd hsp (splitNl_ne_nil a)
      · simp only [List.cons_append, splitNl, hc, if_false, List.append_eq, ih, hsp]

/-- A newline-free text is a single line. -/
theorem splitNl_no_newline (l : Str) (h : '\n' ∉ l) : splitNl l = [l] := by
  induction l with
  | nil => rfl
  | cons c t ih =>
    have hc : c ≠ '\n' := fun he => h (by simp [he])
    have ht : '\n' ∉ t := fun hm => h (List.mem_cons_of_mem _ hm)
    simp [splitNl, hc, ih ht]

/-- C6: the CSV line parser keeps a comma inside a double-quoted field in the
field, decodes a doubled quote inside a quoted field to one literal quote,
skips whitespace-only lines entirely, and treats an unterminated quote by
keeping the rest of the line as literal field content (it is a total function,
so no error is ever raised). -/
theorem parseCSV_quoting :
    (∀ cs : Str, '"' ∉ cs → parseLine ('"' :: cs ++ ['"']) = [cs]) ∧
    (∀ cs₁ cs₂ : Str, '"' ∉ cs₁ → '"' ∉ cs₂ →
      parseLine ('"' :: cs₁ ++ '"' :: '"' :: cs₂ ++ ['"']) = [cs₁ ++ '"' :: cs₂]) ∧
    (∀ t₁ t₂ blank : Str, '\n' ∉ blank → isBlank blank = true →
      parseCSV (t₁ ++ '\n' :: blank ++ '\n' :: t₂) = parseCSV (t₁ ++ '\n' :: t₂)) ∧
    (∀ cs : Str, '"' ∉ cs → parseLine ('"' :: cs) = [cs]) := by
  refine ⟨?_, ?_, ?_, ?_⟩
  · intro cs h
    simp only [List.cons_append, List.append_assoc]
    rw [parseLine, parseLineAux_quote_open, parseLineAux_quoted cs h,
      parseLineAux_quote_end]
    simp
  · intro cs₁ cs₂ h₁ h₂
    simp only [List.cons_append, List.append_assoc]
    rw [parseLine, parseLineAux_quote_open, parseLineAux_quoted cs₁ h₁,
      parseLineAux_escaped, parseLineAux_quoted cs₂ h₂, parseLineAux_quote_end]
    simp
  · intro t₁ t₂ blank hnl hb
    unfold parseCSV
    simp only [List.cons_append, List.append_assoc]
    rw [splitNl_append_newline, splitNl_append_newline, splitNl_no_newline blank hnl,
      splitNl_append_newline]
    simp [List.filterMap_append, hb]
  · intro cs h
    rw [parseLine, parseLineAux_quote_open, ← List.append_nil cs,
      parseLineAux_quoted cs h]
    simp [parseLineAux]

/-- Witness for C6 at concrete lines: a quoted comma survives, a doubled
quote decodes, a whitespace-only line vanishes, an unterminated quote keeps
the tail. -/
theorem parseCSV_quoting_witness :
    parseLine ('"' :: ['a', ',', 'b'] ++ ['"']) = [['a', ',', 'b']] ∧
    parseLine ('"' :: ['a'] ++ '"' :: '"' :: ['b'] ++ ['"']) = [['a', '"', 'b']] ∧
    parseCSV (['x'] ++ '\n' :: [' ', ' '] ++ '\n' :: ['y']) =
      parseCSV (['x'] ++ '\n' :: ['y']) ∧
    parseLine ('"' :: ['a', ',', 'b']) = [['a', ',', 'b']] :=
  ⟨parseCSV_quoting.1 _ (by decide),
   parseCSV_quoting.2.1 _ _ (by decide) (by decide),
   parseCSV_quoting.2.2.1 ['x'] ['y'] [' ', ' '] (by decide) (by decide),
   parseCSV_quoting.2.2.2 _ (by decide)⟩

/-- C10: the parser emits exactly one row per non-blank physical line, and a
newline inside a double-quoted field therefore splits the field across two
rows; quote state does not carry across lines (each side parses from the
unquoted state). -/
theorem parseCSV_one_row_per_line (l₁ l₂ : Str) (h₁ : '\n' ∉ l₁) (h₂ : '\n' ∉ l₂)
    (hb₁ : isBlank l₁ = false) (hb₂ : isBlank l₂ = false) :
    parseCSV (l₁ ++ '\n' :: l₂) = [parseLine l₁, parseLine l₂] ∧
    ∀ text : Str,
      (parseCSV text).length = ((splitNl text).filter fun l => !isBlank l).length := by
  constructor
  · unfold parseCSV
    rw [splitNl_append_newline, splitNl_no_newline l₁ h₁, splitNl_no_newline l₂ h₂]
    simp [hb₁, hb₂]
  · intro text
    unfold parseCSV
    induction splitNl text with
    | nil => rfl
    | cons l ls ih =>
      by_cases hb : isBlank l <;> simp [hb, ih]

/-- Witness for C10: a double-quoted field containing a newline is split
into two rows, the quote state resetting at the line boundary. -/
theorem parseCSV_one_row_per_line_witness :
    parseCSV (('"' :: ['a']) ++ '\n' :: ['b', '"']) = [[['a']], [['b']]] ∧
    (parseCSV "a\n\nb".toList).length =
      ((splitNl "a\n\nb".toList).filter fun l => !isBlank l).length := by
  have h := parseCSV_one_row_per_line ('"' :: ['a']) ['b', '"']
    (by decide) (by decide) (by decide) (by decide)
  refine ⟨?_, h.2 _⟩
  rw [h.1]
  decide

/-- C1: every record produced by the row validator has a whitelisted
category, a non-empty name that is neither an aggregate-row name nor an
excluded name, and comes from a row whose reference-URL field contains
the source-domain substring; rejected rows contribute nothing, so the output
is never longer than the input. -/
theorem parseResults_validated (rows : List (List Str)) (tabName nowISO : Str) :
    (∀ rec ∈ parseResults rows tabName nowISO,
      rec.type ∈ categoryWhitelist ∧
      rec.name ≠ [] ∧
      isAggregateName rec.name = false ∧
      excludedName rec.name = false ∧
      ∃ row ∈ rows, trimL (row.getD 2 []) = rec.name ∧
        hasOncehub (trimL (row.getD 3 [])) = true) ∧
    (parseResults rows tabName nowISO).length ≤ rows.length := by
  constructor
  · intro rec hrec
    rw [parseResults, List.mem_filterMap] at hrec
    obtain ⟨row, hrow, hsome⟩ := hrec
    have hrowmem : row ∈ rows := List.mem_of_mem_drop hrow
    simp only [rowToResult] at hsome
    split_ifs at hsome with h5 hcat hname hagg hexcl hurl <;>
      (injection hsome with he
       subst he
       exact ⟨by simpa using hcat, by simpa [List.isEmpty_iff] using hname,
         by simpa using hagg, by simpa using hexcl, row, hrowmem, rfl,
         by simpa using hurl⟩)
  · calc (parseResults rows tabName nowISO).length
        ≤ (rows.drop 1).length := List.length_filterMap_le _ _
      _ ≤ rows.length := by
        rw [List.length_drop]
        omega

/-- Witness for C1 at the sample fixture. -/
theorem parseResults_validated_witness :
    wRec.type ∈ categoryWhitelist ∧ wRec.name ≠ [] ∧
    isAggregateName wRec.name = false ∧ excludedName wRec.name = false ∧
    ∃ row ∈ wRows, trimL (row.getD 2 []) = wRec.name ∧
      hasOncehub (trimL (row.getD 3 [])) = true :=
  (parseResults_validated wRows "T".toList "now".toList).1 wRec (by decide)

/-- Candidate tabs that agree on the fetch tables produce the same
resolution. -/
theorem tryTabsA_congr (t₁ t₂ : Str → Option Str) (tabs : List Str)
    (h : ∀ tab ∈ tabs, t₁ tab = t₂ tab) : tryTabsA t₁ tabs = tryTabsA t₂ tabs := by
  induction tabs with
  | nil => rfl
  | cons t ts ih =>
    have ht := h t (List.mem_cons_self t ts)
    have hrest : ∀ tab ∈ ts, t₁ tab = t₂ tab :=
      fun tab htab => h tab (List.mem_cons_of_mem t htab)
    simp only [tryTabsA]
    rw [← ht]
    cases t₁ t with
    | none => exact ih hrest
    | some csv =>
      simp only
      split_ifs with h1 h2 h3
      · exact ih hrest
      · exact ih hrest
      · rfl
      · exact ih hrest

/-- C8: the analytics report is a pure function of the fetch results for the
generated candidate tabs of the 7-day window and of the reference date: two
fetch tables that agree on every consulted tab yield identical reports. -/
theorem getAnalytics_deterministic (t₁ t₂ : Str → Option Str) (today : CalDate)
    (h : ∀ i < 7, ∀ tab ∈ generateTabNames (predIter i today), t₁ tab = t₂ tab) :
    getAnalytics t₁ today = getAnalytics t₂ today := by
  have hs : seriesOf t₁ today = seriesOf t₂ today := by
    unfold seriesOf
    apply List.filterMap_congr
    intro i hi
    have hi7 : i < 7 := List.mem_range.mp hi
    have heq : fetchDataForDateA t₁ (predIter i today) =
        fetchDataForDateA t₂ (predIter i today) :=
      tryTabsA_congr t₁ t₂ _ (h i hi7)
    simp only [heq]
  unfold getAnalytics
  rw [hs]

/-- Witness for C8: two extensionally agreeing tables produce equal
reports. -/
theorem getAnalytics_deterministic_witness :
    getAnalytics (fun _ => none) ⟨2026, 1, 11⟩ = getAnalytics bigTable ⟨2026, 1, 11⟩ :=
  getAnalytics_deterministic _ _ _ (by decide)

/-- Every weekly-changes entry arises from a latest record and a week-ago
record matched by name, both with known wait values, whose difference is the
non-zero change. -/
theorem computeWeeklyChanges_mem (latest week : List DataItem) (e : WeeklyChange)
    (he : e ∈ computeWeeklyChanges latest week) :
    e.change ≠ 0 ∧ ∃ l ∈ latest, ∃ p ∈ week, l.name = e.name ∧ p.name = e.name ∧
      0 ≤ l.daysOut ∧ 0 ≤ p.daysOut ∧ e.change = l.daysOut - p.daysOut := by
  unfold computeWeeklyChanges at he
  have he2 : e ∈ latest.filterMap (weeklyEntryOf week) :=
    (List.perm_insertionSort _ _).mem_iff.mp he
  rw [List.mem_filterMap] at he2
  obtain ⟨item, hitem, hsome⟩ := he2
  simp only [weeklyEntryOf] at hsome
  by_cases hneg : item.daysOut < 0
  · rw [if_pos hneg] at hsome
    exact Option.noConfusion hsome
  rw [if_neg hneg] at hsome
  rcases hfind : week.find? (fun d => d.name == item.name) with _ | w <;>
    simp only [hfind] at hsome
  · exact Option.noConfusion hsome
  split_ifs at hsome with hw hc
  injection hsome with he3
  subst he3
  have hwmem := List.mem_of_find?_eq_some hfind
  have hwname : w.name = item.name := by
    have := List.find?_some hfind
    simpa using this
  exact ⟨hc, item, hitem, w, hwmem, rfl, hwname, by omega, hw, rfl⟩

/-- The weekly-changes list is sorted by descending absolute change. -/
theorem computeWeeklyChanges_sorted (latest week : List DataItem) :
    (computeWeeklyChanges latest week).Pairwise fun a b => |b.change| ≤ |a.change| := by
  haveI h1 : IsTotal WeeklyChange (fun a b => |b.change| ≤ |a.change|) :=
    ⟨fun a b => le_total _ _⟩
  haveI h2 : IsTrans WeeklyChange (fun a b => |b.change| ≤ |a.change|) :=
    ⟨fun a b c hab hbc => le_trans hbc hab⟩
  exact List.sorted_insertionSort _ _

/-- Completeness of the weekly-changes pass: every latest record with a known
value, whose first name-match in the week-ago snapshot has a known different
value, contributes exactly its delta to the list — no entry is held back. -/
theorem computeWeeklyChanges_complete (latest week : List DataItem) (item : DataItem)
    (hmem : item ∈ latest) (hik : 0 ≤ item.daysOut) (w : DataItem)
    (hfind : week.find? (fun d => d.name == item.name) = some w)
    (hwk : 0 ≤ w.daysOut) (hne : item.daysOut ≠ w.daysOut) :
    (⟨item.name, item.type, item.daysOut - w.daysOut⟩ : WeeklyChange) ∈
      computeWeeklyChanges latest week := by
  unfold computeWeeklyChanges
  apply (List.perm_insertionSort _ _).mem_iff.mpr
  rw [List.mem_filterMap]
  refine ⟨item, hmem, ?_⟩
  simp only [weeklyEntryOf, if_neg (by omega : ¬item.daysOut < 0), hfind]
  simp [hwk, sub_ne_zero.mpr hne]

/-- C4 (amended): with fewer than 7 resolved days the weekly-changes list is
empty; with a full window, every entry matches the latest snapshot against
the oldest snapshot of the window by name (both values known) with the
non-zero difference as its change, and conversely every latest record with a
known value whose name-match in the oldest snapshot has a known, different
value contributes its delta — there is no minimum-magnitude filter, so
changes of magnitude 1 are emitted; the list is sorted by descending
absolute change. -/
theorem weeklyChanges_spec (allDays : List DayData) :
    (allDays.length < 7 → weeklyChangesOf allDays = []) ∧
    (∀ h : 7 ≤ allDays.length,
      (∀ e ∈ weeklyChangesOf allDays,
        e.change ≠ 0 ∧
        ∃ l ∈ (allDays.get ⟨0, by omega⟩).data, ∃ p ∈ (allDays.get ⟨6, by omega⟩).data,
          l.name = e.name ∧ p.name = e.name ∧ 0 ≤ l.daysOut ∧ 0 ≤ p.daysOut ∧
          e.change = l.daysOut - p.daysOut) ∧
      (∀ item ∈ (allDays.get ⟨0, by omega⟩).data, ∀ w : DataItem,
        0 ≤ item.daysOut →
        ((allDays.get ⟨6, by omega⟩).data).find? (fun d => d.name == item.name) = some w →
        0 ≤ w.daysOut → item.daysOut ≠ w.daysOut →
        (⟨item.name, item.type, item.daysOut - w.daysOut⟩ : WeeklyChange) ∈
          weeklyChangesOf allDays)) ∧
    (weeklyChangesOf allDays).Pairwise fun a b => |b.change| ≤ |a.change| := by
  refine ⟨?_, ?_, ?_⟩
  · intro h
    unfold weeklyChangesOf
    rw [dif_neg (by omega)]
  · intro h
    constructor
    · intro e he
      unfold weeklyChangesOf at he
      rw [dif_pos h] at he
      exact computeWeeklyChanges_mem _ _ e he
    · intro item hitem w hik hfind hwk hne
      unfold weeklyChangesOf
      rw [dif_pos h]
      exact computeWeeklyChanges_complete _ _ item hitem hik w hfind hwk hne
  · unfold weeklyChangesOf
    split
    · exact computeWeeklyChanges_sorted _ _
    · exact List.Pairwise.nil

/-- C4 counterexample to the claim as stated: the weekly delta of magnitude 1
is emitted, so there is no filter to magnitude at least 2. -/
theorem weeklyChanges_no_min_filter :
    weeklyChangesOf wkWindow = [⟨"A".toList, "HRT".toList, 1⟩] ∧
    (1 : Int).natAbs < 2 := by decide

/-- Witness for C4 at the concrete full window, exercising both the
soundness and the completeness directions. -/
theorem weeklyChanges_spec_witness :
    ((1 : Int) ≠ 0 ∧
      ∃ l ∈ (wkWindow.get ⟨0, by decide⟩).data, ∃ p ∈ (wkWindow.get ⟨6, by decide⟩).data,
        l.name = "A".toList ∧ p.name = "A".toList ∧ 0 ≤ l.daysOut ∧ 0 ≤ p.daysOut ∧
        (1 : Int) = l.daysOut - p.daysOut) ∧
    (⟨"A".toList, "HRT".toList, 1⟩ : WeeklyChange) ∈ weeklyChangesOf wkWindow := by
  have h := (weeklyChanges_spec wkWindow).2.1 (by decide)
  refine ⟨h.1 ⟨"A".toList, "HRT".toList, 1⟩ (by decide), ?_⟩
  have hc := h.2 ⟨"A".toList, "HRT".toList, [], 3⟩ (by decide)
    ⟨"A".toList, "HRT".toList, [], 2⟩ (by decide) (by decide) (by decide) (by decide)
  simpa using hc

/-- Contents of one daily-changes entry, in terms of the latest record that
produced it and the previous-day record it was matched with. -/
theorem dailyEntryOf_name (prevData : List DataItem) (item : DataItem) (e : DailyChange)
    (h : dailyEntryOf prevData item = some e) :
    e.name = item.name ∧ e.change ≠ 0 ∧ 0 ≤ item.daysOut ∧ e.type = item.type ∧
      ∃ p ∈ prevData, p.name = item.name ∧ 0 ≤ p.daysOut ∧
        e.change = item.daysOut - p.daysOut ∧ e.current = item.daysOut ∧
        e.previousValue = p.daysOut := by
  simp only [dailyEntryOf] at h
  by_cases hneg : item.daysOut < 0
  · rw [if_pos hneg] at h
    exact Option.noConfusion h
  rw [if_neg hneg] at h
  rcases hfind : prevData.find? (fun d => d.name == item.name) with _ | p <;>
    simp only [hfind] at h
  · exact Option.noConfusion h
  split_ifs at h with hp hc
  injection h with he
  subst he
  have hpname : p.name = item.name := by simpa using List.find?_some hfind
  exact ⟨rfl, hc, by omega, rfl, p, List.mem_of_find?_eq_some hfind, hpname, hp,
    rfl, rfl, rfl⟩

/-- With pairwise distinct names, `find?` by name returns exactly the member
with that name. -/
theorem find?_name_unique (prevData : List DataItem)
    (hP : (prevData.map fun d => d.name).Nodup) (p : DataItem) (hp : p ∈ prevData) :
    prevData.find? (fun d => d.name == p.name) = some p := by
  induction prevData with
  | nil => cases hp
  | cons q rest ih =>
    have hPc : q.name ∉ rest.map (fun d => d.name) ∧ (rest.map fun d => d.name).Nodup := by
      rw [List.map_cons, List.nodup_cons] at hP
      exact hP
    rcases List.mem_cons.mp hp with rfl | hmem
    · simp [List.find?_cons]
    · have hqname : q.name ≠ p.name := by
        intro hqp
        apply hPc.1
        rw [hqp]
        exact List.mem_map_of_mem _ hmem
      have hbeq : (q.name == p.name) = false := by simpa using hqname
      rw [List.find?_cons, hbeq]
      exact ih hPc.2 hmem

/-- When no record of the latest snapshot has the name, no daily-changes
entry has it either. -/
theorem countP_name_zero (prevData latest : List DataItem) (n : Str)
    (hn : ∀ item ∈ latest, item.name ≠ n) :
    ((latest.filterMap (dailyEntryOf prevData)).countP fun e => e.name == n) = 0 := by
  rw [List.countP_eq_zero]
  intro e he
  rw [List.mem_filterMap] at he
  obtain ⟨item, hitem, hsome⟩ := he
  have hen := (dailyEntryOf_name prevData item e hsome).1
  simp [hen, hn item hitem]

/-- With distinct previous-day names, the validator emits an entry for a
latest record exactly when its value is known and the record of the same name
on the previous day has a known, different value. -/
theorem dailyEntryOf_isSome_iff (prevData : List DataItem)
    (hP : (prevData.map fun d => d.name).Nodup) (item : DataItem) :
    (dailyEntryOf prevData item).isSome = true ↔
      (0 ≤ item.daysOut ∧ ∃ p ∈ prevData, p.name = item.name ∧ 0 ≤ p.daysOut ∧
        item.daysOut ≠ p.daysOut) := by
  constructor
  · intro h
    rcases ho : dailyEntryOf prevData item with _ | e
    · rw [ho] at h
      simp at h
    · obtain ⟨hen, hc, hik, _, p, hpmem, hpn, hpk, hch, _, _⟩ :=
        dailyEntryOf_name prevData item e ho
      refine ⟨hik, p, hpmem, hpn, hpk, ?_⟩
      intro heq
      rw [heq] at hch
      omega
  · rintro ⟨hik, p, hpmem, hpn, hpk, hne⟩
    have hfind : prevData.find? (fun d => d.name == item.name) = some p := by
      have h0 := find?_name_unique prevData hP p hpmem
      rw [hpn] at h0
      exact h0
    simp only [dailyEntryOf, if_neg (by omega : ¬item.daysOut < 0), hfind]
    simp [hpk, sub_ne_zero.mpr hne]

/-- With pairwise distinct names on both sides, the (unsorted) daily-changes
entries contain each name exactly once if it qualifies and not at all
otherwise. -/
theorem countP_dailyChanges (prevData : List DataItem)
    (hP : (prevData.map fun d => d.name).Nodup) (n : Str) :
    ∀ latest : List DataItem, (latest.map fun d => d.name).Nodup →
      ((latest.filterMap (dailyEntryOf prevData)).countP fun e => e.name == n) =
        if dailyQualifies latest prevData n then 1 else 0 := by
  intro latest
  induction latest with
  | nil =>
    intro _
    rw [if_neg]
    · rfl
    · rintro ⟨l, hl, _⟩
      cases hl
  | cons item rest ih =>
    intro hL
    have hLc : item.name ∉ rest.map (fun d => d.name) ∧
        (rest.map fun d => d.name).Nodup := by
      rw [List.map_cons, List.nodup_cons] at hL
      exact hL
    rw [List.filterMap_cons]
    by_cases hname : item.name = n
    · have hrest0 : ((rest.filterMap (dailyEntryOf prevData)).countP
          fun e => e.name == n) = 0 := by
        apply countP_name_zero
        intro it hit hn2
        apply hLc.1
        rw [hname, ← hn2]
        exact List.mem_map_of_mem _ hit
      rcases hentry : dailyEntryOf prevData item with _ | e
      · simp only [hentry, hrest0]
        rw [if_neg]
        rintro ⟨l, hl, p, hp, hln, hpn, hlk, hpk, hne⟩
        rcases List.mem_cons.mp hl with rfl | hlr
        · have hsome : (dailyEntryOf prevData l).isSome = true := by
            rw [dailyEntryOf_isSome_iff prevData hP l]
            exact ⟨hlk, p, hp, by rw [hpn, ← hln], hpk, fun he => hne (by
              rw [he])⟩
          rw [hentry] at hsome
          simp at hsome
        · apply hLc.1
          rw [hname, ← hln]
          exact List.mem_map_of_mem _ hlr
      · simp only [hentry]
        have hen : e.name = item.name := (dailyEntryOf_name prevData item e hentry).1
        have hpred : (e.name == n) = true := by simp [hen, hname]
        rw [List.countP_cons, hpred, hrest0]
        have hq : dailyQualifies (item :: rest) prevData n := by
          have hsome : (dailyEntryOf prevData item).isSome = true := by
            rw [hentry]
            rfl
          rw [dailyEntryOf_isSome_iff prevData hP item] at hsome
          obtain ⟨hik, p, hp, hpn, hpk, hne⟩ := hsome
          exact ⟨item, List.mem_cons_self _ _, p, hp, hname, hpn.trans hname, hik, hpk, hne⟩
        rw [if_pos hq]
        simp
    · have hiff : dailyQualifies (item :: rest) prevData n ↔
          dailyQualifies rest prevData n := by
        constructor
        · rintro ⟨l, hl, p, hp, hln, hpn, hlk, hpk, hne⟩
          rcases List.mem_cons.mp hl with rfl | hlr
          · exact absurd hln hname
          · exact ⟨l, hlr, p, hp, hln, hpn, hlk, hpk, hne⟩
        · rintro ⟨l, hl, p, hp, hln, hpn, hlk, hpk, hne⟩
          exact ⟨l, List.mem_cons_of_mem _ hl, p, hp, hln, hpn, hlk, hpk, hne⟩
      rcases hentry : dailyEntryOf prevData item with _ | e
      · simp only [hentry]
        rw [ih hLc.2]
        simp only [hiff]
      · simp only [hentry]
        have hen : e.name = item.name := (dailyEntryOf_name prevData item e hentry).1
        have hpred : (e.name == n) = false := by
          simp [hen, hname]
        rw [List.countP_cons, hpred, ih hLc.2]
        simp only [hiff]
        simp

/-- The daily-changes list is sorted by descending absolute change. -/
theorem computeDailyChanges_sorted (latest prevData : List DataItem) :
    (computeDailyChanges latest prevData).Pairwise fun a b => |b.change| ≤ |a.change| := by
  haveI h1 : IsTotal DailyChange (fun a b => |b.change| ≤ |a.change|) :=
    ⟨fun a b => le_total _ _⟩
  haveI h2 : IsTrans DailyChange (fun a b => |b.change| ≤ |a.change|) :=
    ⟨fun a b c hab hbc => le_trans hbc hab⟩
  exact List.sorted_insertionSort _ _

/-- C3 (amended): when both snapshots carry pairwise distinct record names,
the daily-changes list contains exactly one entry for each name present in
both snapshots with known and differing wait values and no entry for any
other name; each entry's change is latest minus previous (never 0); and the
list is sorted by descending absolute change. -/
theorem dailyChanges_spec (latest prevData : List DataItem)
    (hL : (latest.map fun d => d.name).Nodup)
    (hP : (prevData.map fun d => d.name).Nodup) :
    (∀ n : Str, ((computeDailyChanges latest prevData).countP fun e => e.name == n) =
      if dailyQualifies latest prevData n then 1 else 0) ∧
    (∀ e ∈ computeDailyChanges latest prevData, e.change ≠ 0 ∧
      ∃ l ∈ latest, ∃ p ∈ prevData, l.name = e.name ∧ p.name = e.name ∧
        0 ≤ l.daysOut ∧ 0 ≤ p.daysOut ∧ e.change = l.daysOut - p.daysOut ∧
        e.current = l.daysOut ∧ e.previousValue = p.daysOut) ∧
    (computeDailyChanges latest prevData).Pairwise fun a b => |b.change| ≤ |a.change| := by
  refine ⟨?_, ?_, computeDailyChanges_sorted latest prevData⟩
  · intro n
    have hperm : (computeDailyChanges latest prevData).Perm
        (latest.filterMap (dailyEntryOf prevData)) := List.perm_insertionSort _ _
    rw [hperm.countP_eq]
    exact countP_dailyChanges prevData hP n latest hL
  · intro e he
    have he2 : e ∈ latest.filterMap (dailyEntryOf prevData) :=
      (List.perm_insertionSort _ _).mem_iff.mp he
    rw [List.mem_filterMap] at he2
    obtain ⟨item, hitem, hsome⟩ := he2
    obtain ⟨hen, hc, hik, _, p, hpmem, hpn, hpk, hch, hcur, hprev⟩ :=
      dailyEntryOf_name prevData item e hsome
    exact ⟨hc, item, hitem, p, hpmem, hen.symm, hpn.trans hen.symm, hik, hpk, hch,
      hcur, hprev⟩

/-- C3 counterexample to the claim as stated: a name that qualifies (present
in both snapshots, both values known and differing) appears twice, not
exactly once, because the loop emits one entry per latest record. -/
theorem dailyChanges_duplicate_names :
    dailyQualifies dupLatest dupPrev "A".toList ∧
    ((computeDailyChanges dupLatest dupPrev).countP fun e => e.name == "A".toList) = 2 := by
  decide

/-- Witness for C3 at concrete distinct-name snapshots. -/
theorem dailyChanges_spec_witness :
    (((computeDailyChanges wLatest wPrev).countP fun e => e.name == "A".toList) =
      if dailyQualifies wLatest wPrev "A".toList then 1 else 0) ∧
    ((-3 : Int) ≠ 0 ∧
      ∃ l ∈ wLatest, ∃ p ∈ wPrev, l.name = "A".toList ∧ p.name = "A".toList ∧
        0 ≤ l.daysOut ∧ 0 ≤ p.daysOut ∧ (-3 : Int) = l.daysOut - p.daysOut ∧
        (2 : Int) = l.daysOut ∧ (5 : Int) = p.daysOut) := by
  have h := dailyChanges_spec wLatest wPrev (by decide) (by decide)
  exact ⟨h.1 "A".toList, h.2.1 ⟨"A".toList, "HRT".toList, -3, 2, 5⟩ (by decide)⟩
